import Mathlib

/-!
Verification development for the PHOENIX stellar-spectrum retrieval helper
described by the `chromatic` repository's documentation (`get_phoenix_photons`
and the `phoenix_library` cache object).  The repository ships only
documentation for this component, so the definitions below are shallow
embeddings modelled from the specification text: a 3-D grid
(temperature, surface gravity, metallicity) of spectrum files, multilinear
interpolation that is linear in `log10(temperature)` and linear in the native
dex units of the other two axes, an optional explicit wavelength grid that
overrides the resolution argument, and a download-once local file cache.
-/

namespace Phoenix

/-- Modelled from the spec: a physical unit, represented by its dimension
exponents over length, time and photon count.  The spec's units contract only
constrains dimensions (wavelength in a length unit, flux in photon-count-rate
per unit area per unit wavelength). -/
structure PhysUnit where
  length : ℤ
  time : ℤ
  photon : ℤ
deriving DecidableEq, Repr

/-- Modelled from the spec: the micron, a length unit (dimension vector of a
pure length). -/
def micronUnit : PhysUnit := ⟨1, 0, 0⟩

/-- Modelled from the spec: photon-count-rate per unit area per unit
wavelength (photons / (s · m² · m)), the surface-flux unit returned by
`get_photons`. -/
def photonSurfaceFluxUnit : PhysUnit := ⟨-3, -1, 1⟩

/-- A unit is a length unit when its dimension vector is that of a length. -/
def PhysUnit.isLengthUnit (u : PhysUnit) : Prop :=
  u.length = 1 ∧ u.time = 0 ∧ u.photon = 0

/-- Modelled from the spec: the three grid axes of the PHOENIX library. -/
inductive GridAxis where
  | temperature
  | logg
  | metallicity
deriving DecidableEq, Repr

/-- Modelled from the spec: the error taxonomy of the retrieval helper
(§7 of the specification). -/
inductive PhoenixError where
  | outOfRange (axis : GridAxis) (lo hi : ℚ)
  | unsupportedResolution (R : ℚ)
  | retrieval
  | cacheCorruption
deriving DecidableEq, Repr

/-- Modelled from the spec: the per-call query parameters of `get_photons`
(temperature in K, surface gravity and metallicity in dex, resolution tier,
and an optional explicit wavelength array in micron). -/
structure Query where
  temperature : ℚ
  logg : ℚ
  metallicity : ℚ
  R : ℚ
  wavelength : Option (List ℚ)
deriving DecidableEq, Repr

/-- Modelled from the spec: the returned spectrum, a wavelength array and a
flux array, both carrying explicit physical units. -/
structure Spectrum where
  wavelength : List ℚ
  wavelengthUnit : PhysUnit
  flux : List ℝ
  fluxUnit : PhysUnit

/-- Modelled from the spec: the static catalog of the PHOENIX library: the
sorted axis values, the supported discrete resolution tiers, the native
(full) resolution tier, the per-tier sampling (number of samples and the
wavelength of each sample, in micron), and the archive's flux data, indexed
by grid point, tier and sample index. -/
structure PhoenixGrid where
  temperatures : List ℚ
  loggs : List ℚ
  metallicities : List ℚ
  resolutions : List ℚ
  nativeR : ℚ
  nSamples : ℚ → ℕ
  wavelengthOf : ℚ → ℕ → ℚ
  fluxAt : ℚ → ℚ → ℚ → ℚ → ℕ → ℝ

/-- Modelled from the spec: locate the bracketing grid points of `v` on a
sorted axis.  A value exactly on a grid point brackets to itself (no
interpolation needed on that axis); a value strictly between two adjacent
grid values brackets to that pair; a value outside the grid returns `none`. -/
def findBracket : List ℚ → ℚ → Option (ℚ × ℚ)
  | [], _ => none
  | [a], v => if v = a then some (a, a) else none
  | a :: b :: rest, v =>
      if v = a then some (a, a)
      else if a < v ∧ v < b then some (a, b)
      else findBracket (b :: rest) v

/-- Modelled from the spec: the temperature coordinate used for
interpolation, `log10` of the temperature in Kelvin. -/
noncomputable def log10 (x : ℚ) : ℝ := Real.logb 10 (x : ℝ)

/-- Modelled from the spec: interpolation weight on the temperature axis,
linear in `log10(temperature)` rather than in raw temperature. -/
noncomputable def tempWeight (lo hi v : ℚ) : ℝ :=
  (log10 v - log10 lo) / (log10 hi - log10 lo)

/-- Modelled from the spec: interpolation weight on the surface-gravity and
metallicity axes, linear in their native dex units. -/
noncomputable def linWeight (lo hi v : ℚ) : ℝ :=
  ((v : ℝ) - (lo : ℝ)) / ((hi : ℝ) - (lo : ℝ))

/-- Modelled from the spec: one axis interpolation step.  For a value exactly
on a grid point (`lo = hi`) the weight degenerates to 1.0 on that point and
0.0 on neighbors, i.e. an exact lookup; otherwise it is the linear blend with
weight `w` toward the upper bracket. -/
noncomputable def axInterp (w : ℝ) (lo hi : ℚ) (F : ℚ → ℝ) : ℝ :=
  if lo = hi then F lo else (1 - w) * F lo + w * F hi

/-- Interpolation over one axis in log-temperature coordinates. -/
noncomputable def interpLog (b : ℚ × ℚ) (v : ℚ) (F : ℚ → ℝ) : ℝ :=
  axInterp (tempWeight b.1 b.2 v) b.1 b.2 F

/-- Interpolation over one axis, linear in the native dex units. -/
noncomputable def interpLin (b : ℚ × ℚ) (v : ℚ) (F : ℚ → ℝ) : ℝ :=
  axInterp (linWeight b.1 b.2 v) b.1 b.2 F

/-- Modelled from the spec: the multilinear blend in the spec's stated order:
temperature first (in log space) for each (logg, metallicity) corner pair,
then logg, then metallicity. -/
noncomputable def blendTLM (bt bl bm : ℚ × ℚ) (vT vL vM : ℚ)
    (F : ℚ → ℚ → ℚ → ℝ) : ℝ :=
  interpLin bm vM fun m => interpLin bl vL fun l => interpLog bt vT fun t => F t l m

/-- The multilinear blend with axis order temperature, metallicity, logg. -/
noncomputable def blendTML (bt bl bm : ℚ × ℚ) (vT vL vM : ℚ)
    (F : ℚ → ℚ → ℚ → ℝ) : ℝ :=
  interpLin bl vL fun l => interpLin bm vM fun m => interpLog bt vT fun t => F t l m

/-- The multilinear blend with axis order logg, temperature, metallicity. -/
noncomputable def blendLTM (bt bl bm : ℚ × ℚ) (vT vL vM : ℚ)
    (F : ℚ → ℚ → ℚ → ℝ) : ℝ :=
  interpLin bm vM fun m => interpLog bt vT fun t => interpLin bl vL fun l => F t l m

/-- The multilinear blend with axis order logg, metallicity, temperature. -/
noncomputable def blendLMT (bt bl bm : ℚ × ℚ) (vT vL vM : ℚ)
    (F : ℚ → ℚ → ℚ → ℝ) : ℝ :=
  interpLog bt vT fun t => interpLin bm vM fun m => interpLin bl vL fun l => F t l m

/-- The multilinear blend with axis order metallicity, temperature, logg. -/
noncomputable def blendMTL (bt bl bm : ℚ × ℚ) (vT vL vM : ℚ)
    (F : ℚ → ℚ → ℚ → ℝ) : ℝ :=
  interpLin bl vL fun l => interpLog bt vT fun t => interpLin bm vM fun m => F t l m

/-- The multilinear blend with axis order metallicity, logg, temperature. -/
noncomputable def blendMLT (bt bl bm : ℚ × ℚ) (vT vL vM : ℚ)
    (F : ℚ → ℚ → ℚ → ℝ) : ℝ :=
  interpLog bt vT fun t => interpLin bl vL fun l => interpLin bm vM fun m => F t l m

/-- The distinct grid values of one bracketed axis: one point when the query
sits exactly on a grid line, two otherwise. -/
def axisPoints (b : ℚ × ℚ) : List ℚ :=
  if b.1 = b.2 then [b.1] else [b.1, b.2]

/-- Modelled from the spec: the corner grid points whose files are needed for
a bracketed query, the product of the per-axis bracket points (between 1 and
2^3 = 8 corners). -/
def corners (bt bl bm : ℚ × ℚ) : List (ℚ × ℚ × ℚ) :=
  (axisPoints bt).flatMap fun t =>
    (axisPoints bl).flatMap fun l =>
      (axisPoints bm).map fun m => (t, l, m)

/-- Modelled from the spec: the identity of one downloadable grid file:
a (temperature, logg, metallicity) grid point together with a resolution
tier. -/
abbrev Key := ℚ × ℚ × ℚ × ℚ

/-- The resolution tier whose files a query needs: the native tier when an
explicit wavelength array was supplied (resampling works from full native
resolution), the requested tier otherwise. -/
def usedR (g : PhoenixGrid) (q : Query) : ℚ :=
  match q.wavelength with
  | some _ => g.nativeR
  | none => q.R

/-- Modelled from the spec: the set of grid files a query needs, or `none`
when the query is out of the grid's range on some axis. -/
def neededKeysOf (g : PhoenixGrid) (q : Query) : Option (List Key) :=
  match findBracket g.temperatures q.temperature,
        findBracket g.loggs q.logg,
        findBracket g.metallicities q.metallicity with
  | some bt, some bl, some bm =>
      some ((corners bt bl bm).map fun c => (c.1, c.2.1, c.2.2, usedR g q))
  | _, _, _ => none

/-- Modelled from the spec: monotonic linear interpolation of sampled values
onto a requested wavelength, used to resample the interpolated spectrum onto
an explicit wavelength array.  Wavelengths outside the sampled range are
masked to zero. -/
noncomputable def resampleList : List (ℚ × ℝ) → ℚ → ℝ
  | [], _ => 0
  | [(a, fa)], w => if w = a then fa else 0
  | (a, fa) :: (b, fb) :: rest, w =>
      if w = a then fa
      else if a < w ∧ w < b then
        (1 - linWeight a b w) * fa + linWeight a b w * fb
      else resampleList ((b, fb) :: rest) w

/-- Modelled from the spec: build the returned spectrum for a bracketed
query from a flux source `F` (grid point ↦ tier ↦ sample ↦ flux).  With an
explicit wavelength array the interpolated native-resolution spectrum is
resampled onto it; otherwise the native resolution-binned wavelength grid of
the requested tier is returned, provided the tier is supported. -/
noncomputable def spectrumFor (g : PhoenixGrid) (q : Query) (bt bl bm : ℚ × ℚ)
    (F : ℚ → ℚ → ℚ → ℚ → ℕ → ℝ) : Except PhoenixError Spectrum :=
  match q.wavelength with
  | some ws =>
      let samples : List (ℚ × ℝ) :=
        (List.range (g.nSamples g.nativeR)).map fun i =>
          (g.wavelengthOf g.nativeR i,
           blendTLM bt bl bm q.temperature q.logg q.metallicity
             fun t l m => F t l m g.nativeR i)
      .ok ⟨ws, micronUnit, ws.map (resampleList samples), photonSurfaceFluxUnit⟩
  | none =>
      if q.R ∈ g.resolutions then
        .ok ⟨(List.range (g.nSamples q.R)).map (g.wavelengthOf q.R), micronUnit,
             (List.range (g.nSamples q.R)).map (fun i =>
               blendTLM bt bl bm q.temperature q.logg q.metallicity
                 fun t l m => F t l m q.R i),
             photonSurfaceFluxUnit⟩
      else .error (.unsupportedResolution q.R)

/-- Modelled from the spec: the pure denotation of `get_photons` /
`get_phoenix_photons` (the repository ships only documentation for it):
bracket each axis independently, failing with `OutOfRangeError` naming the
offending axis and the grid bounds when a value falls outside the grid, then
interpolate multilinearly (log-temperature coordinate) over the needed
corner files and return the spectrum with explicit units. -/
noncomputable def get_photons (g : PhoenixGrid) (q : Query) :
    Except PhoenixError Spectrum :=
  match findBracket g.temperatures q.temperature with
  | none => .error (.outOfRange .temperature
      (g.temperatures.headD 0) (g.temperatures.getLastD 0))
  | some bt =>
    match findBracket g.loggs q.logg with
    | none => .error (.outOfRange .logg (g.loggs.headD 0) (g.loggs.getLastD 0))
    | some bl =>
      match findBracket g.metallicities q.metallicity with
      | none => .error (.outOfRange .metallicity
          (g.metallicities.headD 0) (g.metallicities.getLastD 0))
      | some bm => spectrumFor g q bt bl bm g.fluxAt

/-- Modelled from the spec: the default query parameters baked into the
signature of `get_phoenix_photons` (a solar-like temperature, logg 4.5,
metallicity 0.0, and a default resolution tier). -/
def defaultQuery : Query := ⟨5780, 9 / 2, 0, 100, none⟩

/-- Modelled from the spec: the public `get_phoenix_photons` entry point;
every parameter is optional and defaults are substituted for omitted ones. -/
noncomputable def get_phoenix_photons (g : PhoenixGrid)
    (temperature logg metallicity R : Option ℚ)
    (wavelength : Option (List ℚ)) : Except PhoenixError Spectrum :=
  get_photons g
    ⟨temperature.getD defaultQuery.temperature,
     logg.getD defaultQuery.logg,
     metallicity.getD defaultQuery.metallicity,
     R.getD defaultQuery.R,
     wavelength⟩

/-- Modelled from the spec: the outcome of one network transfer attempt for a
grid file: the samples actually received, and whether the transfer finished.
An incomplete transfer holds only a partial file. -/
structure FetchResult where
  data : List ℝ
  complete : Bool

/-- Modelled from the spec: the local cache directory, one complete file per
downloaded grid key. -/
def Cache : Type := List (Key × List ℝ)

/-- Look up a key in the cache. -/
def cacheLookup : Cache → Key → Option (List ℝ)
  | [], _ => none
  | (k', f) :: rest, k => if k = k' then some f else cacheLookup (rest : Cache) k

/-- Modelled from the spec: the bounded retry policy for transient network
failures: attempt the transfer up to `n` times, keeping the file of the
first complete transfer and discarding every incomplete one. -/
def attemptFetch (net : ℕ → Key → FetchResult) : ℕ → Key → Option (List ℝ)
  | 0, _ => none
  | n + 1, k =>
      let r := net n k
      if r.complete then some r.data else attemptFetch net n k

/-- Modelled from the spec: ensure each needed grid file is present in the
local cache, downloading missing ones; a complete download is written to the
cache atomically (download to a temporary file, then rename), an incomplete
one is discarded and surfaces a `RetrievalError` after the retry budget is
exhausted.  Returns the updated cache, the keys actually downloaded, and the
error, if any. -/
def ensureAll (net : ℕ → Key → FetchResult) (retries : ℕ) :
    Cache → List Key → Cache × List Key × Option PhoenixError
  | cache, [] => (cache, [], none)
  | cache, k :: ks =>
      match cacheLookup cache k with
      | some _ => ensureAll net retries cache ks
      | none =>
          match attemptFetch net retries k with
          | some d =>
              let r := ensureAll net retries (((k, d) :: cache : Cache)) ks
              (r.1, k :: r.2.1, r.2.2)
          | none => (cache, [], some .retrieval)

/-- Read one flux sample of a cached grid file (missing entries and indexes
read as zero; the calling code only reads files it has ensured). -/
noncomputable def fileFlux (c : Cache) (k : Key) (i : ℕ) : ℝ :=
  ((cacheLookup c k).getD []).getD i 0

/-- Modelled from the spec: the content the remote archive serves for a grid
key: the complete flux array of that grid point at that tier. -/
noncomputable def archiveFile (g : PhoenixGrid) (k : Key) : List ℝ :=
  (List.range (g.nSamples k.2.2.2)).map fun i =>
    g.fluxAt k.1 k.2.1 k.2.2.1 k.2.2.2 i

/-- Modelled from the spec: the stateful `get_photons` of the
`phoenix_library` cache object: bracket the axes (out-of-range errors are
surfaced immediately, before any network activity), check the resolution
tier, ensure the needed corner files are cached (downloading missing ones),
and compute the spectrum from the cached files.  Returns the updated cache,
the keys downloaded during the call, and the result. -/
noncomputable def get_photons_cached (g : PhoenixGrid)
    (net : ℕ → Key → FetchResult) (retries : ℕ) (cache : Cache) (q : Query) :
    Cache × List Key × Except PhoenixError Spectrum :=
  match findBracket g.temperatures q.temperature with
  | none => (cache, [], .error (.outOfRange .temperature
      (g.temperatures.headD 0) (g.temperatures.getLastD 0)))
  | some bt =>
    match findBracket g.loggs q.logg with
    | none => (cache, [], .error (.outOfRange .logg
        (g.loggs.headD 0) (g.loggs.getLastD 0)))
    | some bl =>
      match findBracket g.metallicities q.metallicity with
      | none => (cache, [], .error (.outOfRange .metallicity
          (g.metallicities.headD 0) (g.metallicities.getLastD 0)))
      | some bm =>
        if q.wavelength = none ∧ q.R ∉ g.resolutions then
          (cache, [], .error (.unsupportedResolution q.R))
        else
          let ks := (corners bt bl bm).map fun c => (c.1, c.2.1, c.2.2, usedR g q)
          match ensureAll net retries cache ks with
          | (c', ds, some e) => (c', ds, .error e)
          | (c', ds, none) =>
              (c', ds, spectrumFor g q bt bl bm fun t l m r i =>
                fileFlux c' (t, l, m, r) i)

/-- A geometric wavelength grid at resolution `R` eventually exceeds the full
model range (the ratio between successive bin centers is `1 + 1/R > 1`). -/
def binCount_exists (R : ℚ) (h : 0 < R) : ∃ n : ℕ, (100 : ℚ) ≤ (1 + 1 / R) ^ n := by
  obtain ⟨n, hn⟩ := pow_unbounded_of_one_lt (100 : ℚ)
    (show (1 : ℚ) < 1 + 1 / R by
      have : 0 < 1 / R := by positivity
      linarith)
  exact ⟨n, hn.le⟩

/-- Modelled from the spec: the number of wavelength bins of the tier-`R`
grid, chosen so that a geometric grid starting at 0.05 micron with bin ratio
`1 + 1/R` first reaches the 5-micron end of the full model range at its last
sample. -/
def binCount (R : ℚ) : ℕ :=
  if h : 0 < R then Nat.find (binCount_exists R h) + 1 else 1

/-- Modelled from the spec: the PHOENIX temperature grid, 100 K steps from
2300 K to 7000 K and 200 K steps from 7200 K to 12000 K. -/
def standardTemperatures : List ℚ :=
  ((List.range 48).map fun i => 2300 + 100 * (i : ℚ)) ++
    ((List.range 25).map fun i => 7200 + 200 * (i : ℚ))

/-- Modelled from the spec: the surface-gravity grid, 0.5 dex steps from 0.0
to 6.0. -/
def standardLoggs : List ℚ := (List.range 13).map fun i => (i : ℚ) / 2

/-- Modelled from the spec: the metallicity grid, 0.5 dex steps (coarser at
the metal-poor end). -/
def standardMetallicities : List ℚ :=
  [-4, -3, -2, -3 / 2, -1, -1 / 2, 0, 1 / 2, 1]

/-- Modelled from the spec: the supported discrete resolution tiers. -/
def standardResolutions : List ℚ := [10, 100, 1000, 10000, 100000]

/-- Modelled from the spec: the wavelength of sample `i` of the tier-`R`
grid, a geometric progression from 0.05 micron with bin ratio `1 + 1/R`. -/
def standardWavelengthOf (R : ℚ) (i : ℕ) : ℚ := 1 / 20 * (1 + 1 / R) ^ i

/-- Modelled from the spec: the PHOENIX library catalog (axes, tiers and
sampling as documented; the archive's flux data is a parameter, since the
actual model fluxes live on the remote archive, not in the repository). -/
noncomputable def standardGrid (flux : ℚ → ℚ → ℚ → ℚ → ℕ → ℝ) : PhoenixGrid :=
  ⟨standardTemperatures, standardLoggs, standardMetallicities,
   standardResolutions, 500000, binCount, standardWavelengthOf, flux⟩

/-- Modelled from the spec: the per-tier file size for a single metallicity;
the documentation pins 400 kilobytes at R = 10 and 3 gigabytes at
R = 100000, with sizes growing with the tier (intermediate tiers are chosen
monotonically between the documented endpoints). -/
def fileSizeBytes (R : ℚ) : ℕ :=
  if R = 10 then 400000
  else if R = 100 then 4000000
  else if R = 1000 then 40000000
  else if R = 10000 then 400000000
  else if R = 100000 then 3000000000
  else 0

/-- A small concrete library catalog used to exercise the model on concrete
inputs. -/
noncomputable def wGrid : PhoenixGrid :=
  ⟨[2, 4, 8], [1, 3], [0, 2], [10], 100, fun _ => 2, fun _ i => 1 + (i : ℚ),
   fun t l m r i => ((t + l + m + r + (i : ℚ) : ℚ) : ℝ)⟩

/-- A network that always serves the archive's complete file on the first
attempt. -/
noncomputable def honestNet (g : PhoenixGrid) : ℕ → Key → FetchResult :=
  fun _ k => ⟨archiveFile g k, true⟩

/-- A network whose every transfer attempt breaks off before completion. -/
def failNet : ℕ → Key → FetchResult := fun _ _ => ⟨[], false⟩

section Theorems

/-- On a sorted axis, a value that is a grid value brackets to itself. -/
theorem findBracket_self :
    ∀ l : List ℚ, l.Chain' (· < ·) → ∀ v : ℚ, v ∈ l →
      findBracket l v = some (v, v)
  | [], _, v, hv => by simp at hv
  | [a], _, v, hv => by
      rcases List.mem_singleton.mp hv with rfl
      simp [findBracket]
  | a :: b :: rest, hs, v, hv => by
      rcases List.mem_cons.mp hv with rfl | hv'
      · simp [findBracket]
      · have hab : a < b := (List.chain'_cons.mp hs).1
        have hs' : (b :: rest).Chain' (· < ·) := (List.chain'_cons.mp hs).2
        have hbv : b ≤ v := by
          rcases List.mem_cons.mp hv' with rfl | hv''
          · exact le_refl v
          · have hp : (b :: rest).Pairwise (· < ·) :=
              List.chain'_iff_pairwise.mp hs'
            exact ((List.pairwise_cons.mp hp).1 v hv'').le
        have hva : ¬v = a := fun h => absurd (h ▸ hbv) (not_le.mpr (h ▸ hab))
        have hnot : ¬(a < v ∧ v < b) := fun h => absurd h.2 (not_lt.mpr hbv)
        simp only [findBracket, if_neg hva, if_neg hnot]
        exact findBracket_self (b :: rest) hs' v hv'

/-- A value below every axis value has no bracket. -/
theorem findBracket_below :
    ∀ l : List ℚ, ∀ v : ℚ, (∀ x ∈ l, v < x) → findBracket l v = none
  | [], v, _ => rfl
  | [a], v, h => by
      have := h a (List.mem_singleton_self a)
      simp [findBracket, ne_of_lt this]
  | a :: b :: rest, v, h => by
      have hva : v < a := h a (List.mem_cons_self a (b :: rest))
      have hnot : ¬(a < v ∧ v < b) := fun hc => absurd hva (not_lt.mpr hc.1.le)
      simp only [findBracket, if_neg (ne_of_lt hva), if_neg hnot]
      exact findBracket_below (b :: rest) v fun x hx =>
        h x (List.mem_cons_of_mem a hx)

/-- Axis interpolation at a degenerate bracket is an exact lookup. -/
theorem axInterp_same (w : ℝ) (a : ℚ) (F : ℚ → ℝ) : axInterp w a a F = F a :=
  if_pos rfl

/-- The blend at a fully degenerate bracket returns the corner value. -/
theorem blendTLM_exact (t l m : ℚ) (vT vL vM : ℚ) (F : ℚ → ℚ → ℚ → ℝ) :
    blendTLM (t, t) (l, l) (m, m) vT vL vM F = F t l m := by
  simp [blendTLM, interpLog, interpLin, axInterp]

/-- C2: for a query whose temperature, logg and metallicity each exactly
match a grid value, `get_photons` returns the grid file's native flux array
unchanged (each axis degenerates to an exact lookup, weight 1.0 on the
matching point), and the only grid file needed is the matching point's own
file (no neighbor files on any axis). -/
theorem phoenix_exact_grid_lookup (g : PhoenixGrid) (q : Query)
    (hst : g.temperatures.Chain' (· < ·)) (hsl : g.loggs.Chain' (· < ·))
    (hsm : g.metallicities.Chain' (· < ·))
    (hT : q.temperature ∈ g.temperatures) (hL : q.logg ∈ g.loggs)
    (hM : q.metallicity ∈ g.metallicities)
    (hw : q.wavelength = none) (hR : q.R ∈ g.resolutions) :
    get_photons g q =
      .ok ⟨(List.range (g.nSamples q.R)).map (g.wavelengthOf q.R), micronUnit,
           (List.range (g.nSamples q.R)).map
             (fun i => g.fluxAt q.temperature q.logg q.metallicity q.R i),
           photonSurfaceFluxUnit⟩ ∧
    neededKeysOf g q = some [(q.temperature, q.logg, q.metallicity, q.R)] := by
  have hbt := findBracket_self _ hst _ hT
  have hbl := findBracket_self _ hsl _ hL
  have hbm := findBracket_self _ hsm _ hM
  constructor
  · simp only [get_photons, hbt, hbl, hbm, spectrumFor, hw, if_pos hR,
      blendTLM_exact]
  · simp [neededKeysOf, hbt, hbl, hbm, corners, axisPoints, usedR, hw]

/-- C2 witness: the exact grid point (4, 1, 0) of the concrete catalog at
tier 10 is returned as an exact lookup with a singleton needed-file set. -/
theorem phoenix_exact_grid_lookup_witness :
    get_photons wGrid ⟨4, 1, 0, 10, none⟩ =
      .ok ⟨(List.range (wGrid.nSamples 10)).map (wGrid.wavelengthOf 10),
           micronUnit,
           (List.range (wGrid.nSamples 10)).map
             (fun i => wGrid.fluxAt 4 1 0 10 i),
           photonSurfaceFluxUnit⟩ ∧
    neededKeysOf wGrid ⟨4, 1, 0, 10, none⟩ = some [(4, 1, 0, 10)] :=
  phoenix_exact_grid_lookup wGrid ⟨4, 1, 0, 10, none⟩
    (by norm_num [wGrid, List.chain'_cons]) (by norm_num [wGrid, List.chain'_cons])
    (by norm_num [wGrid, List.chain'_cons]) (by decide) (by decide) (by decide)
    rfl (by decide)

/-- C1: for a query strictly between grid points on all three axes,
`get_photons` computes every returned flux sample as the multilinear blend
of the eight corner fluxes, with the temperature weight formed in
`log10`-temperature coordinates (`Real.logb 10`) and the logg and
metallicity weights linear in their native dex values. -/
theorem phoenix_loglinear_interpolation (g : PhoenixGrid) (q : Query)
    (t0 t1 l0 l1 m0 m1 : ℚ)
    (hbt : findBracket g.temperatures q.temperature = some (t0, t1))
    (hbl : findBracket g.loggs q.logg = some (l0, l1))
    (hbm : findBracket g.metallicities q.metallicity = some (m0, m1))
    (ht : t0 < q.temperature) (ht' : q.temperature < t1)
    (hl : l0 < q.logg) (hl' : q.logg < l1)
    (hm : m0 < q.metallicity) (hm' : q.metallicity < m1)
    (hw : q.wavelength = none) (hR : q.R ∈ g.resolutions) :
    get_photons g q =
      .ok ⟨(List.range (g.nSamples q.R)).map (g.wavelengthOf q.R), micronUnit,
           (List.range (g.nSamples q.R)).map (fun i =>
             (1 - (Real.logb 10 (q.temperature : ℝ) - Real.logb 10 (t0 : ℝ)) /
                    (Real.logb 10 (t1 : ℝ) - Real.logb 10 (t0 : ℝ))) *
               (1 - ((q.logg : ℝ) - (l0 : ℝ)) / ((l1 : ℝ) - (l0 : ℝ))) *
               (1 - ((q.metallicity : ℝ) - (m0 : ℝ)) / ((m1 : ℝ) - (m0 : ℝ))) *
               g.fluxAt t0 l0 m0 q.R i +
             ((Real.logb 10 (q.temperature : ℝ) - Real.logb 10 (t0 : ℝ)) /
                (Real.logb 10 (t1 : ℝ) - Real.logb 10 (t0 : ℝ))) *
               (1 - ((q.logg : ℝ) - (l0 : ℝ)) / ((l1 : ℝ) - (l0 : ℝ))) *
               (1 - ((q.metallicity : ℝ) - (m0 : ℝ)) / ((m1 : ℝ) - (m0 : ℝ))) *
               g.fluxAt t1 l0 m0 q.R i +
             (1 - (Real.logb 10 (q.temperature : ℝ) - Real.logb 10 (t0 : ℝ)) /
                    (Real.logb 10 (t1 : ℝ) - Real.logb 10 (t0 : ℝ))) *
               (((q.logg : ℝ) - (l0 : ℝ)) / ((l1 : ℝ) - (l0 : ℝ))) *
               (1 - ((q.metallicity : ℝ) - (m0 : ℝ)) / ((m1 : ℝ) - (m0 : ℝ))) *
               g.fluxAt t0 l1 m0 q.R i +
             ((Real.logb 10 (q.temperature : ℝ) - Real.logb 10 (t0 : ℝ)) /
                (Real.logb 10 (t1 : ℝ) - Real.logb 10 (t0 : ℝ))) *
               (((q.logg : ℝ) - (l0 : ℝ)) / ((l1 : ℝ) - (l0 : ℝ))) *
               (1 - ((q.metallicity : ℝ) - (m0 : ℝ)) / ((m1 : ℝ) - (m0 : ℝ))) *
               g.fluxAt t1 l1 m0 q.R i +
             (1 - (Real.logb 10 (q.temperature : ℝ) - Real.logb 10 (t0 : ℝ)) /
                    (Real.logb 10 (t1 : ℝ) - Real.logb 10 (t0 : ℝ))) *
               (1 - ((q.logg : ℝ) - (l0 : ℝ)) / ((l1 : ℝ) - (l0 : ℝ))) *
               (((q.metallicity : ℝ) - (m0 : ℝ)) / ((m1 : ℝ) - (m0 : ℝ))) *
               g.fluxAt t0 l0 m1 q.R i +
             ((Real.logb 10 (q.temperature : ℝ) - Real.logb 10 (t0 : ℝ)) /
                (Real.logb 10 (t1 : ℝ) - Real.logb 10 (t0 : ℝ))) *
               (1 - ((q.logg : ℝ) - (l0 : ℝ)) / ((l1 : ℝ) - (l0 : ℝ))) *
               (((q.metallicity : ℝ) - (m0 : ℝ)) / ((m1 : ℝ) - (m0 : ℝ))) *
               g.fluxAt t1 l0 m1 q.R i +
             (1 - (Real.logb 10 (q.temperature : ℝ) - Real.logb 10 (t0 : ℝ)) /
                    (Real.logb 10 (t1 : ℝ) - Real.logb 10 (t0 : ℝ))) *
               (((q.logg : ℝ) - (l0 : ℝ)) / ((l1 : ℝ) - (l0 : ℝ))) *
               (((q.metallicity : ℝ) - (m0 : ℝ)) / ((m1 : ℝ) - (m0 : ℝ))) *
               g.fluxAt t0 l1 m1 q.R i +
             ((Real.logb 10 (q.temperature : ℝ) - Real.logb 10 (t0 : ℝ)) /
                (Real.logb 10 (t1 : ℝ) - Real.logb 10 (t0 : ℝ))) *
               (((q.logg : ℝ) - (l0 : ℝ)) / ((l1 : ℝ) - (l0 : ℝ))) *
               (((q.metallicity : ℝ) - (m0 : ℝ)) / ((m1 : ℝ) - (m0 : ℝ))) *
               g.fluxAt t1 l1 m1 q.R i),
           photonSurfaceFluxUnit⟩ := by
  have hne_t : ¬t0 = t1 := ne_of_lt (ht.trans ht')
  have hne_l : ¬l0 = l1 := ne_of_lt (hl.trans hl')
  have hne_m : ¬m0 = m1 := ne_of_lt (hm.trans hm')
  simp only [get_photons, hbt, hbl, hbm, spectrumFor, hw, if_pos hR]
  congr 2
  refine List.map_congr_left fun i _ => ?_
  simp only [blendTLM, interpLog, interpLin, axInterp, tempWeight, linWeight,
    log10, if_neg hne_t, if_neg hne_l, if_neg hne_m]
  ring

/-- C1 witness: a query strictly inside the concrete catalog's cell
((2,4) × (1,2) × (0,1)) is interpolated by the log-linear multilinear
formula. -/
theorem phoenix_loglinear_interpolation_witness :
    ∃ s, get_photons wGrid ⟨3, 2, 1, 10, none⟩ = Except.ok s :=
  ⟨_, phoenix_loglinear_interpolation wGrid ⟨3, 2, 1, 10, none⟩
    2 4 1 3 0 2 (by decide) (by decide) (by decide) (by decide) (by decide)
    (by decide) (by decide) (by decide) (by decide) rfl (by decide)⟩

/-- C3: when an explicit wavelength array is supplied, it takes precedence
over the resolution argument: the returned spectrum is sampled exactly at
the requested wavelengths (same array, hence same length and ordering), and
the result is unchanged under any requested resolution. -/
theorem phoenix_wavelength_precedence (g : PhoenixGrid) (q : Query)
    (ws : List ℚ) (bt bl bm : ℚ × ℚ)
    (hbt : findBracket g.temperatures q.temperature = some bt)
    (hbl : findBracket g.loggs q.logg = some bl)
    (hbm : findBracket g.metallicities q.metallicity = some bm)
    (hw : q.wavelength = some ws) :
    ∃ s, get_photons g q = .ok s ∧ s.wavelength = ws ∧
      s.flux.length = ws.length ∧
      ∀ r, get_photons g { q with R := r } = get_photons g q := by
  have h1 : get_photons g q =
      .ok ⟨ws, micronUnit,
           ws.map (resampleList ((List.range (g.nSamples g.nativeR)).map fun i =>
             (g.wavelengthOf g.nativeR i,
              blendTLM bt bl bm q.temperature q.logg q.metallicity
                fun t l m => g.fluxAt t l m g.nativeR i))),
           photonSurfaceFluxUnit⟩ := by
    simp only [get_photons, hbt, hbl, hbm, spectrumFor, hw]
  refine ⟨_, h1, rfl, by simp, ?_⟩
  intro r
  rw [h1]
  simp only [get_photons, hbt, hbl, hbm, spectrumFor, hw]

/-- C3 witness: a call on the concrete catalog with an explicit two-point
wavelength array returns a spectrum sampled at exactly those wavelengths,
independently of the requested resolution. -/
theorem phoenix_wavelength_precedence_witness :
    ∃ s, get_photons wGrid ⟨3, 2, 1, 10, some [1, 2]⟩ = .ok s ∧
      s.wavelength = [1, 2] ∧ s.flux.length = ([1, 2] : List ℚ).length ∧
      ∀ r, get_photons wGrid { (⟨3, 2, 1, 10, some [1, 2]⟩ : Query) with R := r } =
        get_photons wGrid ⟨3, 2, 1, 10, some [1, 2]⟩ :=
  phoenix_wavelength_precedence wGrid ⟨3, 2, 1, 10, some [1, 2]⟩ [1, 2]
    (2, 4) (1, 3) (0, 2) (by decide) (by decide) (by decide) rfl

/-- A convex combination lies between its two endpoints. -/
theorem lerp_bounds (a b w : ℝ) (h0 : 0 ≤ w) (h1 : w ≤ 1) :
    min a b ≤ (1 - w) * a + w * b ∧ (1 - w) * a + w * b ≤ max a b := by
  rcases le_total a b with h | h
  · rw [min_eq_left h, max_eq_right h]
    constructor <;> nlinarith
  · rw [min_eq_right h, max_eq_left h]
    constructor <;> nlinarith

/-- For a positive temperature strictly inside its bracket, the
log-temperature interpolation weight lies in [0, 1] (log10 is strictly
monotone on positive values). -/
theorem tempWeight_bounds (t0 t1 v : ℚ) (hp : 0 < t0) (h1 : t0 < v)
    (h2 : v < t1) : 0 ≤ tempWeight t0 t1 v ∧ tempWeight t0 t1 v ≤ 1 := by
  have hp' : (0 : ℝ) < (t0 : ℝ) := by exact_mod_cast hp
  have h1' : (t0 : ℝ) < (v : ℝ) := by exact_mod_cast h1
  have h2' : (v : ℝ) < (t1 : ℝ) := by exact_mod_cast h2
  have hb : (1 : ℝ) < 10 := by norm_num
  have hl1 : Real.logb 10 (t0 : ℝ) < Real.logb 10 (v : ℝ) :=
    Real.logb_lt_logb hb hp' h1'
  have hl2 : Real.logb 10 (v : ℝ) < Real.logb 10 (t1 : ℝ) :=
    Real.logb_lt_logb hb (hp'.trans h1') h2'
  unfold tempWeight log10
  constructor
  · exact div_nonneg (by linarith) (by linarith)
  · rw [div_le_one (by linarith)]
    linarith

/-- Indexing a mapped range list below its length evaluates the function. -/
theorem getD_map_range (n i : ℕ) (f : ℕ → ℝ) (h : i < n) :
    ((List.range n).map f).getD i 0 = f i := by
  rw [List.getD_eq_getElem?_getD]
  simp [List.getElem?_map, List.getElem?_range h]

/-- For bracketed axes, no explicit wavelength array, and a supported tier,
the returned spectrum is the tier's wavelength grid with the multilinear
blend of the corner fluxes. -/
theorem get_photons_eq_of_brackets (g : PhoenixGrid) (q : Query)
    (bt bl bm : ℚ × ℚ)
    (hbt : findBracket g.temperatures q.temperature = some bt)
    (hbl : findBracket g.loggs q.logg = some bl)
    (hbm : findBracket g.metallicities q.metallicity = some bm)
    (hw : q.wavelength = none) (hR : q.R ∈ g.resolutions) :
    get_photons g q =
      .ok ⟨(List.range (g.nSamples q.R)).map (g.wavelengthOf q.R), micronUnit,
           (List.range (g.nSamples q.R)).map (fun i =>
             blendTLM bt bl bm q.temperature q.logg q.metallicity
               fun t l m => g.fluxAt t l m q.R i),
           photonSurfaceFluxUnit⟩ := by
  simp only [get_photons, hbt, hbl, hbm, spectrumFor, hw, if_pos hR]

/-- For a value strictly inside its bracket, the linear dex interpolation
weight lies in [0, 1]. -/
theorem linWeight_bounds (a b v : ℚ) (h1 : a < v) (h2 : v < b) :
    0 ≤ linWeight a b v ∧ linWeight a b v ≤ 1 := by
  have h1' : (a : ℝ) < (v : ℝ) := by exact_mod_cast h1
  have h2' : (v : ℝ) < (b : ℝ) := by exact_mod_cast h2
  unfold linWeight
  constructor
  · exact div_nonneg (by linarith) (by linarith)
  · rw [div_le_one (by linarith)]
    linarith

/-- A value above every axis value has no bracket. -/
theorem findBracket_above :
    ∀ l : List ℚ, ∀ v : ℚ, (∀ x ∈ l, x < v) → findBracket l v = none
  | [], v, _ => rfl
  | [a], v, h => by
      have := h a (List.mem_singleton_self a)
      simp [findBracket, ne_of_gt this]
  | a :: b :: rest, v, h => by
      have hav : a < v := h a (List.mem_cons_self a (b :: rest))
      have hbv : b < v :=
        h b (List.mem_cons_of_mem a (List.mem_cons_self b rest))
      have hnot : ¬(a < v ∧ v < b) := fun hc => absurd hbv (not_lt.mpr hc.2.le)
      simp only [findBracket, if_neg (ne_of_gt hav), if_neg hnot]
      exact findBracket_above (b :: rest) v fun x hx =>
        h x (List.mem_cons_of_mem a hx)

/-- On a sorted axis, the head is a lower bound of every element. -/
theorem sorted_headD_le (l : List ℚ) (d : ℚ) (hs : l.Chain' (· < ·)) :
    ∀ x ∈ l, l.headD d ≤ x := by
  cases l with
  | nil => intro x hx; simp at hx
  | cons a rest =>
      intro x hx
      have hp : (a :: rest).Pairwise (· < ·) := List.chain'_iff_pairwise.mp hs
      rcases List.mem_cons.mp hx with rfl | hx'
      · exact le_refl x
      · exact ((List.pairwise_cons.mp hp).1 x hx').le

/-- On a sorted axis, the last element is an upper bound of every element. -/
theorem sorted_le_getLastD :
    ∀ (l : List ℚ) (d : ℚ), l.Chain' (· < ·) → ∀ x ∈ l, x ≤ l.getLastD d
  | [], _, _, x, hx => absurd hx (List.not_mem_nil x)
  | [a], d, _, x, hx => by
      rcases List.mem_singleton.mp hx with rfl
      simp
  | a :: b :: rest, d, hs, x, hx => by
      have hab : a < b := (List.chain'_cons.mp hs).1
      have hs' : (b :: rest).Chain' (· < ·) := (List.chain'_cons.mp hs).2
      have hlast : (a :: b :: rest).getLastD d = (b :: rest).getLastD d := by
        simp only [List.getLastD_cons]
      rw [hlast]
      rcases List.mem_cons.mp hx with rfl | hx'
      · exact hab.le.trans (sorted_le_getLastD (b :: rest) d hs' b
          (List.mem_cons_self b rest))
      · exact sorted_le_getLastD (b :: rest) d hs' x hx'

/-- A value outside the envelope of a sorted nonempty axis (below its
minimum or above its maximum) has no bracket. -/
theorem findBracket_out (l : List ℚ) (hs : l.Chain' (· < ·)) (v : ℚ)
    (h : v < l.headD 0 ∨ l.getLastD 0 < v) : findBracket l v = none := by
  rcases h with h | h
  · exact findBracket_below l v fun x hx =>
      lt_of_lt_of_le h (sorted_headD_le l 0 hs x hx)
  · exact findBracket_above l v fun x hx =>
      lt_of_le_of_lt (sorted_le_getLastD l 0 hs x hx) h

/-- C4: for a query strictly between two grid values on any one of the
three axes, with the other two axes exactly on grid points, every returned
flux sample lies between the corresponding flux samples of the two
neighboring grid spectra of that axis. -/
theorem phoenix_monotonic_bracketing (g : PhoenixGrid) (q : Query)
    (hw : q.wavelength = none) (hR : q.R ∈ g.resolutions) :
    (∀ t0 t1 l m : ℚ,
      findBracket g.temperatures q.temperature = some (t0, t1) →
      0 < t0 → t0 < q.temperature → q.temperature < t1 →
      findBracket g.loggs q.logg = some (l, l) →
      findBracket g.metallicities q.metallicity = some (m, m) →
      ∃ s, get_photons g q = .ok s ∧
        ∀ i, i < g.nSamples q.R →
          min (g.fluxAt t0 l m q.R i) (g.fluxAt t1 l m q.R i) ≤
              s.flux.getD i 0 ∧
            s.flux.getD i 0 ≤
              max (g.fluxAt t0 l m q.R i) (g.fluxAt t1 l m q.R i)) ∧
    (∀ t l0 l1 m : ℚ,
      findBracket g.temperatures q.temperature = some (t, t) →
      findBracket g.loggs q.logg = some (l0, l1) →
      l0 < q.logg → q.logg < l1 →
      findBracket g.metallicities q.metallicity = some (m, m) →
      ∃ s, get_photons g q = .ok s ∧
        ∀ i, i < g.nSamples q.R →
          min (g.fluxAt t l0 m q.R i) (g.fluxAt t l1 m q.R i) ≤
              s.flux.getD i 0 ∧
            s.flux.getD i 0 ≤
              max (g.fluxAt t l0 m q.R i) (g.fluxAt t l1 m q.R i)) ∧
    (∀ t l m0 m1 : ℚ,
      findBracket g.temperatures q.temperature = some (t, t) →
      findBracket g.loggs q.logg = some (l, l) →
      findBracket g.metallicities q.metallicity = some (m0, m1) →
      m0 < q.metallicity → q.metallicity < m1 →
      ∃ s, get_photons g q = .ok s ∧
        ∀ i, i < g.nSamples q.R →
          min (g.fluxAt t l m0 q.R i) (g.fluxAt t l m1 q.R i) ≤
              s.flux.getD i 0 ∧
            s.flux.getD i 0 ≤
              max (g.fluxAt t l m0 q.R i) (g.fluxAt t l m1 q.R i)) := by
  refine ⟨?_, ?_, ?_⟩
  · intro t0 t1 l m hbt hp ht ht' hbl hbm
    have hne_t : ¬t0 = t1 := ne_of_lt (ht.trans ht')
    have hok := get_photons_eq_of_brackets g q (t0, t1) (l, l) (m, m)
      hbt hbl hbm hw hR
    refine ⟨_, hok, ?_⟩
    intro i hi
    have hget : ((List.range (g.nSamples q.R)).map (fun i =>
        blendTLM (t0, t1) (l, l) (m, m) q.temperature q.logg q.metallicity
          fun t' l' m' => g.fluxAt t' l' m' q.R i)).getD i 0 =
        blendTLM (t0, t1) (l, l) (m, m) q.temperature q.logg q.metallicity
          (fun t' l' m' => g.fluxAt t' l' m' q.R i) :=
      getD_map_range _ _ _ hi
    have hblend : blendTLM (t0, t1) (l, l) (m, m) q.temperature q.logg
        q.metallicity (fun t' l' m' => g.fluxAt t' l' m' q.R i) =
        (1 - tempWeight t0 t1 q.temperature) * g.fluxAt t0 l m q.R i +
          tempWeight t0 t1 q.temperature * g.fluxAt t1 l m q.R i := by
      simp [blendTLM, interpLog, interpLin, axInterp, if_neg hne_t]
    obtain ⟨hw0, hw1⟩ := tempWeight_bounds t0 t1 q.temperature hp ht ht'
    dsimp only
    rw [hget, hblend]
    exact lerp_bounds _ _ _ hw0 hw1
  · intro t l0 l1 m hbt hbl hl hl' hbm
    have hne_l : ¬l0 = l1 := ne_of_lt (hl.trans hl')
    have hok := get_photons_eq_of_brackets g q (t, t) (l0, l1) (m, m)
      hbt hbl hbm hw hR
    refine ⟨_, hok, ?_⟩
    intro i hi
    have hget : ((List.range (g.nSamples q.R)).map (fun i =>
        blendTLM (t, t) (l0, l1) (m, m) q.temperature q.logg q.metallicity
          fun t' l' m' => g.fluxAt t' l' m' q.R i)).getD i 0 =
        blendTLM (t, t) (l0, l1) (m, m) q.temperature q.logg q.metallicity
          (fun t' l' m' => g.fluxAt t' l' m' q.R i) :=
      getD_map_range _ _ _ hi
    have hblend : blendTLM (t, t) (l0, l1) (m, m) q.temperature q.logg
        q.metallicity (fun t' l' m' => g.fluxAt t' l' m' q.R i) =
        (1 - linWeight l0 l1 q.logg) * g.fluxAt t l0 m q.R i +
          linWeight l0 l1 q.logg * g.fluxAt t l1 m q.R i := by
      simp [blendTLM, interpLog, interpLin, axInterp, if_neg hne_l]
    obtain ⟨hw0, hw1⟩ := linWeight_bounds l0 l1 q.logg hl hl'
    dsimp only
    rw [hget, hblend]
    exact lerp_bounds _ _ _ hw0 hw1
  · intro t l m0 m1 hbt hbl hbm hm hm'
    have hne_m : ¬m0 = m1 := ne_of_lt (hm.trans hm')
    have hok := get_photons_eq_of_brackets g q (t, t) (l, l) (m0, m1)
      hbt hbl hbm hw hR
    refine ⟨_, hok, ?_⟩
    intro i hi
    have hget : ((List.range (g.nSamples q.R)).map (fun i =>
        blendTLM (t, t) (l, l) (m0, m1) q.temperature q.logg q.metallicity
          fun t' l' m' => g.fluxAt t' l' m' q.R i)).getD i 0 =
        blendTLM (t, t) (l, l) (m0, m1) q.temperature q.logg q.metallicity
          (fun t' l' m' => g.fluxAt t' l' m' q.R i) :=
      getD_map_range _ _ _ hi
    have hblend : blendTLM (t, t) (l, l) (m0, m1) q.temperature q.logg
        q.metallicity (fun t' l' m' => g.fluxAt t' l' m' q.R i) =
        (1 - linWeight m0 m1 q.metallicity) * g.fluxAt t l m0 q.R i +
          linWeight m0 m1 q.metallicity * g.fluxAt t l m1 q.R i := by
      simp [blendTLM, interpLog, interpLin, axInterp, if_neg hne_m]
    obtain ⟨hw0, hw1⟩ := linWeight_bounds m0 m1 q.metallicity hm hm'
    dsimp only
    rw [hget, hblend]
    exact lerp_bounds _ _ _ hw0 hw1

/-- C4 witness: on the concrete catalog, a temperature strictly between 2
and 4, a logg strictly between 1 and 3, and a metallicity strictly between
0 and 2 (the other two axes on grid points each time) all return samples
bracketed by the two neighboring grid fluxes. -/
theorem phoenix_monotonic_bracketing_witness :
    (∃ s, get_photons wGrid ⟨3, 1, 0, 10, none⟩ = .ok s ∧
      ∀ i, i < wGrid.nSamples 10 →
        min (wGrid.fluxAt 2 1 0 10 i) (wGrid.fluxAt 4 1 0 10 i) ≤
            s.flux.getD i 0 ∧
          s.flux.getD i 0 ≤
            max (wGrid.fluxAt 2 1 0 10 i) (wGrid.fluxAt 4 1 0 10 i)) ∧
    (∃ s, get_photons wGrid ⟨2, 2, 0, 10, none⟩ = .ok s ∧
      ∀ i, i < wGrid.nSamples 10 →
        min (wGrid.fluxAt 2 1 0 10 i) (wGrid.fluxAt 2 3 0 10 i) ≤
            s.flux.getD i 0 ∧
          s.flux.getD i 0 ≤
            max (wGrid.fluxAt 2 1 0 10 i) (wGrid.fluxAt 2 3 0 10 i)) ∧
    (∃ s, get_photons wGrid ⟨2, 1, 1, 10, none⟩ = .ok s ∧
      ∀ i, i < wGrid.nSamples 10 →
        min (wGrid.fluxAt 2 1 0 10 i) (wGrid.fluxAt 2 1 2 10 i) ≤
            s.flux.getD i 0 ∧
          s.flux.getD i 0 ≤
            max (wGrid.fluxAt 2 1 0 10 i) (wGrid.fluxAt 2 1 2 10 i)) :=
  ⟨(phoenix_monotonic_bracketing wGrid ⟨3, 1, 0, 10, none⟩ rfl (by decide)).1
      2 4 1 0 (by decide) (by decide) (by decide) (by decide) (by decide)
      (by decide),
   (phoenix_monotonic_bracketing wGrid ⟨2, 2, 0, 10, none⟩ rfl
      (by decide)).2.1 2 1 3 0 (by decide) (by decide) (by decide) (by decide)
      (by decide),
   (phoenix_monotonic_bracketing wGrid ⟨2, 1, 1, 10, none⟩ rfl
      (by decide)).2.2 2 1 0 2 (by decide) (by decide) (by decide) (by decide)
      (by decide)⟩

/-- C5: the multilinear blend gives the same numeric result in every one of
the six axis orders (temperature first as specified, or any other order),
and the corner set is minimal: exactly one corner per axis sitting on a grid
line and two per strictly-bracketed axis (so 2^k corners for k strict axes,
never more than 2^3 = 8, with no duplicate corner). -/
theorem phoenix_axis_order_invariance (bt bl bm : ℚ × ℚ) (vT vL vM : ℚ)
    (F : ℚ → ℚ → ℚ → ℝ) :
    blendTLM bt bl bm vT vL vM F = blendTML bt bl bm vT vL vM F ∧
    blendTLM bt bl bm vT vL vM F = blendLTM bt bl bm vT vL vM F ∧
    blendTLM bt bl bm vT vL vM F = blendLMT bt bl bm vT vL vM F ∧
    blendTLM bt bl bm vT vL vM F = blendMTL bt bl bm vT vL vM F ∧
    blendTLM bt bl bm vT vL vM F = blendMLT bt bl bm vT vL vM F ∧
    (corners bt bl bm).length =
      (if bt.1 = bt.2 then 1 else 2) *
        ((if bl.1 = bl.2 then 1 else 2) * (if bm.1 = bm.2 then 1 else 2)) ∧
    (corners bt bl bm).length ≤ 8 ∧
    (corners bt bl bm).Nodup := by
  refine ⟨?_, ?_, ?_, ?_, ?_, ?_, ?_, ?_⟩
  · simp only [blendTLM, blendTML, interpLog, interpLin, axInterp]
    split_ifs <;> ring
  · simp only [blendTLM, blendLTM, interpLog, interpLin, axInterp]
    split_ifs <;> ring
  · simp only [blendTLM, blendLMT, interpLog, interpLin, axInterp]
    split_ifs <;> ring
  · simp only [blendTLM, blendMTL, interpLog, interpLin, axInterp]
    split_ifs <;> ring
  · simp only [blendTLM, blendMLT, interpLog, interpLin, axInterp]
    split_ifs <;> ring
  · unfold corners axisPoints
    split_ifs <;> simp
  · unfold corners axisPoints
    split_ifs <;> simp
  · unfold corners axisPoints
    split_ifs with h1 h2 h3 <;>
      simp_all [List.nodup_cons, Prod.ext_iff]

/-- C6: a query outside the grid's supported envelope on any axis — the
temperature, logg or metallicity below that axis's minimum or above its
maximum — makes both the pure call and the cache-backed call fail
immediately with an `OutOfRangeError` naming the offending axis and its
grid bounds; no file is downloaded, nothing is retried, the cache is
untouched, and no fallback spectrum is returned (for the later axes, the
earlier axes are in range, so the named axis is the offending one). -/
theorem phoenix_out_of_range (g : PhoenixGrid)
    (net : ℕ → Key → FetchResult) (retries : ℕ) (cache : Cache) (q : Query)
    (hst : g.temperatures.Chain' (· < ·)) (hsl : g.loggs.Chain' (· < ·))
    (hsm : g.metallicities.Chain' (· < ·)) :
    ((q.temperature < g.temperatures.headD 0 ∨
        g.temperatures.getLastD 0 < q.temperature) →
      get_photons g q = .error (.outOfRange .temperature
        (g.temperatures.headD 0) (g.temperatures.getLastD 0)) ∧
      get_photons_cached g net retries cache q = (cache, [],
        .error (.outOfRange .temperature
          (g.temperatures.headD 0) (g.temperatures.getLastD 0)))) ∧
    (∀ bt : ℚ × ℚ, findBracket g.temperatures q.temperature = some bt →
      (q.logg < g.loggs.headD 0 ∨ g.loggs.getLastD 0 < q.logg) →
      get_photons g q = .error (.outOfRange .logg
        (g.loggs.headD 0) (g.loggs.getLastD 0)) ∧
      get_photons_cached g net retries cache q = (cache, [],
        .error (.outOfRange .logg
          (g.loggs.headD 0) (g.loggs.getLastD 0)))) ∧
    (∀ bt bl : ℚ × ℚ, findBracket g.temperatures q.temperature = some bt →
      findBracket g.loggs q.logg = some bl →
      (q.metallicity < g.metallicities.headD 0 ∨
        g.metallicities.getLastD 0 < q.metallicity) →
      get_photons g q = .error (.outOfRange .metallicity
        (g.metallicities.headD 0) (g.metallicities.getLastD 0)) ∧
      get_photons_cached g net retries cache q = (cache, [],
        .error (.outOfRange .metallicity
          (g.metallicities.headD 0) (g.metallicities.getLastD 0)))) := by
  refine ⟨?_, ?_, ?_⟩
  · intro hout
    have hnone := findBracket_out g.temperatures hst q.temperature hout
    exact ⟨by simp only [get_photons, hnone],
           by simp only [get_photons_cached, hnone]⟩
  · intro bt hbt hout
    have hnone := findBracket_out g.loggs hsl q.logg hout
    exact ⟨by simp only [get_photons, hbt, hnone],
           by simp only [get_photons_cached, hbt, hnone]⟩
  · intro bt bl hbt hbl hout
    have hnone := findBracket_out g.metallicities hsm q.metallicity hout
    exact ⟨by simp only [get_photons, hbt, hbl, hnone],
           by simp only [get_photons_cached, hbt, hbl, hnone]⟩

/-- C6 witness: on the concrete catalog, temperature 1 (below the
temperature minimum 2), logg 9 (above the logg maximum 3), and metallicity 7
(above the metallicity maximum 2) each fail with an out-of-range error
naming that axis and its bounds, with no download and no cache change. -/
theorem phoenix_out_of_range_witness :
    (get_photons wGrid ⟨1, 1, 0, 10, none⟩ =
        .error (.outOfRange .temperature (wGrid.temperatures.headD 0)
          (wGrid.temperatures.getLastD 0)) ∧
      get_photons_cached wGrid failNet 3 [] ⟨1, 1, 0, 10, none⟩ = ([], [],
        .error (.outOfRange .temperature (wGrid.temperatures.headD 0)
          (wGrid.temperatures.getLastD 0)))) ∧
    (get_photons wGrid ⟨3, 9, 0, 10, none⟩ =
        .error (.outOfRange .logg (wGrid.loggs.headD 0)
          (wGrid.loggs.getLastD 0)) ∧
      get_photons_cached wGrid failNet 3 [] ⟨3, 9, 0, 10, none⟩ = ([], [],
        .error (.outOfRange .logg (wGrid.loggs.headD 0)
          (wGrid.loggs.getLastD 0)))) ∧
    (get_photons wGrid ⟨3, 1, 7, 10, none⟩ =
        .error (.outOfRange .metallicity (wGrid.metallicities.headD 0)
          (wGrid.metallicities.getLastD 0)) ∧
      get_photons_cached wGrid failNet 3 [] ⟨3, 1, 7, 10, none⟩ = ([], [],
        .error (.outOfRange .metallicity (wGrid.metallicities.headD 0)
          (wGrid.metallicities.getLastD 0)))) :=
  ⟨(phoenix_out_of_range wGrid failNet 3 [] ⟨1, 1, 0, 10, none⟩
      (by norm_num [wGrid, List.chain'_cons]) (by norm_num [wGrid, List.chain'_cons])
      (by norm_num [wGrid, List.chain'_cons])).1 (Or.inl (by decide)),
   (phoenix_out_of_range wGrid failNet 3 [] ⟨3, 9, 0, 10, none⟩
      (by norm_num [wGrid, List.chain'_cons]) (by norm_num [wGrid, List.chain'_cons])
      (by norm_num [wGrid, List.chain'_cons])).2.1 (2, 4) (by decide)
      (Or.inr (by decide)),
   (phoenix_out_of_range wGrid failNet 3 [] ⟨3, 1, 7, 10, none⟩
      (by norm_num [wGrid, List.chain'_cons]) (by norm_num [wGrid, List.chain'_cons])
      (by norm_num [wGrid, List.chain'_cons])).2.2 (2, 4) (1, 1) (by decide)
      (by decide) (Or.inr (by decide))⟩

/-- Cache lookup steps through a cons cell. -/
theorem cacheLookup_cons (k' : Key) (f : List ℝ) (c : Cache) (k : Key) :
    cacheLookup ((k', f) :: c : Cache) k =
      if k = k' then some f else cacheLookup c k := rfl

/-- If every attempt is incomplete, the bounded-retry fetch yields nothing. -/
theorem attemptFetch_none (net : ℕ → Key → FetchResult) (k : Key)
    (h : ∀ i, (net i k).complete = false) :
    ∀ n, attemptFetch net n k = none
  | 0 => rfl
  | n + 1 => by
      simp only [attemptFetch, h n, Bool.false_eq_true, if_false]
      exact attemptFetch_none net k h n

/-- A successful bounded-retry fetch returns the data of some complete
transfer attempt. -/
theorem attemptFetch_sound (net : ℕ → Key → FetchResult) (k : Key) :
    ∀ n d, attemptFetch net n k = some d →
      ∃ i, (net i k).complete = true ∧ (net i k).data = d
  | 0, d, h => by simp [attemptFetch] at h
  | n + 1, d, h => by
      by_cases hc : (net n k).complete = true
      · refine ⟨n, hc, ?_⟩
        simp only [attemptFetch, hc, if_true] at h
        exact Option.some.inj h
      · simp only [attemptFetch, if_neg hc] at h
        exact attemptFetch_sound net k n d h

/-- Ensuring files never removes or overwrites an existing cache entry. -/
theorem ensureAll_preserves (net : ℕ → Key → FetchResult) (retries : ℕ)
    (ks : List Key) :
    ∀ (cache : Cache) (k : Key) (f : List ℝ), cacheLookup cache k = some f →
      cacheLookup (ensureAll net retries cache ks).1 k = some f := by
  induction ks with
  | nil => intro cache k f h; simpa [ensureAll] using h
  | cons k' ks ih =>
      intro cache k f h
      cases hl : cacheLookup cache k' with
      | some d => simpa [ensureAll, hl] using ih cache k f h
      | none =>
          cases haf : attemptFetch net retries k' with
          | some d =>
              have hk : ¬k = k' := by
                rintro rfl
                rw [h] at hl
                exact Option.noConfusion hl
              have h2 : cacheLookup ((k', d) :: cache : Cache) k = some f := by
                rw [cacheLookup_cons, if_neg hk]; exact h
              simpa [ensureAll, hl, haf] using ih _ k f h2
          | none => simpa [ensureAll, hl, haf] using h

/-- After an error-free ensure pass, every requested key is cached. -/
theorem ensureAll_ok_cached (net : ℕ → Key → FetchResult) (retries : ℕ)
    (ks : List Key) :
    ∀ cache : Cache, (ensureAll net retries cache ks).2.2 = none →
      ∀ k ∈ ks, (cacheLookup (ensureAll net retries cache ks).1 k).isSome := by
  induction ks with
  | nil => intro cache _ k hk; simp at hk
  | cons k' ks ih =>
      intro cache h k hk
      cases hl : cacheLookup cache k' with
      | some d =>
          simp only [ensureAll, hl] at h ⊢
          rcases List.mem_cons.mp hk with rfl | hk'
          · have := ensureAll_preserves net retries ks cache k d hl
            simp [this]
          · exact ih cache h k hk'
      | none =>
          cases haf : attemptFetch net retries k' with
          | some d =>
              simp only [ensureAll, hl, haf] at h ⊢
              rcases List.mem_cons.mp hk with rfl | hk'
              · have hc : cacheLookup ((k, d) :: cache : Cache) k = some d := by
                  rw [cacheLookup_cons, if_pos rfl]
                have := ensureAll_preserves net retries ks _ k d hc
                simp [this]
              · exact ih _ h k hk'
          | none =>
              simp only [ensureAll, hl, haf] at h
              exact absurd h (by simp)

/-- When all requested keys are already cached, ensuring is a no-op: the
cache is unchanged and nothing is downloaded. -/
theorem ensureAll_allCached (net : ℕ → Key → FetchResult) (retries : ℕ)
    (ks : List Key) :
    ∀ cache : Cache, (∀ k ∈ ks, (cacheLookup cache k).isSome) →
      ensureAll net retries cache ks = (cache, [], none) := by
  induction ks with
  | nil => intro cache _; rfl
  | cons k' ks ih =>
      intro cache h
      rcases Option.isSome_iff_exists.mp
        (h k' (List.mem_cons_self k' ks)) with ⟨d, hd⟩
      simp only [ensureAll, hd]
      exact ih cache fun k hk => h k (List.mem_cons_of_mem _ hk)

/-- Atomicity: every entry of the cache produced by an ensure pass is either
an entry of the original cache or the data of some complete transfer — an
incomplete transfer never leaves a (partial) cache entry. -/
theorem ensureAll_entries (net : ℕ → Key → FetchResult) (retries : ℕ)
    (ks : List Key) :
    ∀ (cache : Cache) (k : Key) (f : List ℝ),
      cacheLookup (ensureAll net retries cache ks).1 k = some f →
        cacheLookup cache k = some f ∨
          ∃ i, (net i k).complete = true ∧ (net i k).data = f := by
  induction ks with
  | nil => intro cache k f h; exact Or.inl (by simpa [ensureAll] using h)
  | cons k' ks ih =>
      intro cache k f h
      cases hl : cacheLookup cache k' with
      | some d => exact ih cache k f (by simpa [ensureAll, hl] using h)
      | none =>
          cases haf : attemptFetch net retries k' with
          | some d =>
              have h' : cacheLookup
                  (ensureAll net retries ((k', d) :: cache : Cache) ks).1 k =
                    some f := by
                simpa [ensureAll, hl, haf] using h
              rcases ih _ k f h' with hc | hfetch
              · by_cases hk : k = k'
                · subst hk
                  rw [cacheLookup_cons, if_pos rfl] at hc
                  obtain ⟨i, hci, hdi⟩ := attemptFetch_sound net k retries d haf
                  exact Or.inr ⟨i, hci, by rw [hdi, Option.some.inj hc]⟩
                · rw [cacheLookup_cons, if_neg hk] at hc
                  exact Or.inl hc
              · exact Or.inr hfetch
          | none => exact Or.inl (by simpa [ensureAll, hl, haf] using h)

/-- If some requested key is uncached and all of its transfer attempts are
incomplete, the ensure pass reports a retrieval error. -/
theorem ensureAll_fails (net : ℕ → Key → FetchResult) (retries : ℕ)
    (ks : List Key) :
    ∀ (cache : Cache) (k : Key), k ∈ ks → cacheLookup cache k = none →
      (∀ i, (net i k).complete = false) →
      (ensureAll net retries cache ks).2.2 = some PhoenixError.retrieval := by
  induction ks with
  | nil => intro cache k hk; simp at hk
  | cons k' ks ih =>
      intro cache k hk hmiss hfail
      by_cases hkk : k = k'
      · subst hkk
        simp [ensureAll, hmiss, attemptFetch_none net k hfail retries]
      · have hk' : k ∈ ks := by
          rcases List.mem_cons.mp hk with h | h
          · exact absurd h hkk
          · exact h
        cases hl : cacheLookup cache k' with
        | some d => simpa [ensureAll, hl] using ih cache k hk' hmiss hfail
        | none =>
            cases haf : attemptFetch net retries k' with
            | some d =>
                have hmiss' : cacheLookup ((k', d) :: cache : Cache) k = none := by
                  rw [cacheLookup_cons, if_neg hkk]; exact hmiss
                simpa [ensureAll, hl, haf] using ih _ k hk' hmiss' hfail
            | none => simp [ensureAll, hl, haf]

/-- C7: if some needed grid file is uncached and every transfer attempt for
it breaks off, the cache-backed call fails with a `RetrievalError` (after
exhausting the retry budget), and cache writes are atomic: every entry of
the resulting cache is either a pre-existing entry or the data of a complete
transfer, so no partially-written file is left behind. -/
theorem phoenix_retrieval_error_atomic (g : PhoenixGrid)
    (net : ℕ → Key → FetchResult) (retries : ℕ) (cache : Cache) (q : Query)
    (ks : List Key) (k : Key)
    (hkeys : neededKeysOf g q = some ks)
    (hbranch : q.wavelength ≠ none ∨ q.R ∈ g.resolutions)
    (hk : k ∈ ks) (hmiss : cacheLookup cache k = none)
    (hfail : ∀ i, (net i k).complete = false) :
    (get_photons_cached g net retries cache q).2.2 =
      .error PhoenixError.retrieval ∧
    ∀ (k' : Key) (f : List ℝ),
      cacheLookup (get_photons_cached g net retries cache q).1 k' = some f →
        cacheLookup cache k' = some f ∨
          ∃ i, (net i k').complete = true ∧ (net i k').data = f := by
  cases hbt : findBracket g.temperatures q.temperature with
  | none => simp [neededKeysOf, hbt] at hkeys
  | some bt =>
  cases hbl : findBracket g.loggs q.logg with
  | none => simp [neededKeysOf, hbt, hbl] at hkeys
  | some bl =>
  cases hbm : findBracket g.metallicities q.metallicity with
  | none => simp [neededKeysOf, hbt, hbl, hbm] at hkeys
  | some bm =>
  have hks : ks = (corners bt bl bm).map fun c => (c.1, c.2.1, c.2.2, usedR g q) := by
    rw [neededKeysOf, hbt, hbl, hbm] at hkeys
    exact (Option.some.inj hkeys).symm
  subst hks
  have hcond : ¬(q.wavelength = none ∧ q.R ∉ g.resolutions) := by
    rcases hbranch with h | h
    · exact fun hc => h hc.1
    · exact fun hc => hc.2 h
  rcases hE : ensureAll net retries cache
      ((corners bt bl bm).map fun c => (c.1, c.2.1, c.2.2, usedR g q)) with
    ⟨c', ds, e⟩
  have he : e = some PhoenixError.retrieval := by
    have hf := ensureAll_fails net retries _ cache k hk hmiss hfail
    rw [hE] at hf
    exact hf
  subst he
  have hcall : get_photons_cached g net retries cache q =
      (c', ds, .error PhoenixError.retrieval) := by
    simp only [get_photons_cached, hbt, hbl, hbm]
    rw [if_neg hcond, hE]
  rw [hcall]
  refine ⟨rfl, ?_⟩
  intro k' f hf
  have h1 : cacheLookup (ensureAll net retries cache
      ((corners bt bl bm).map fun c => (c.1, c.2.1, c.2.2, usedR g q))).1 k' =
        some f := by
    rw [hE]; exact hf
  exact ensureAll_entries net retries _ cache k' f h1

/-- C7 witness: with an empty cache and a network whose every transfer
breaks off, the interpolating call needing the files of grid temperatures 2
and 4 fails with a retrieval error and adds nothing to the cache. -/
theorem phoenix_retrieval_error_atomic_witness :
    (get_photons_cached wGrid failNet 3 [] ⟨3, 1, 0, 10, none⟩).2.2 =
      .error PhoenixError.retrieval ∧
    ∀ (k' : Key) (f : List ℝ),
      cacheLookup (get_photons_cached wGrid failNet 3 [] ⟨3, 1, 0, 10, none⟩).1
          k' = some f →
        cacheLookup ([] : Cache) k' = some f ∨
          ∃ i, (failNet i k').complete = true ∧ (failNet i k').data = f :=
  phoenix_retrieval_error_atomic wGrid failNet 3 [] ⟨3, 1, 0, 10, none⟩
    [(2, 1, 0, 10), (4, 1, 0, 10)] (2, 1, 0, 10) (by decide)
    (Or.inr (by decide)) (by decide) rfl (fun _ => rfl)

/-- C8: a successful cache-backed call is reproducible: repeating it with
identical parameters on the resulting cache returns the bit-identical
result, downloads nothing (cache hit on every needed file), and no existing
cache entry is ever mutated by a call. -/
theorem phoenix_cache_hit_determinism (g : PhoenixGrid)
    (net : ℕ → Key → FetchResult) (retries : ℕ) (cache : Cache) (q : Query)
    (h : ((get_photons_cached g net retries cache q).2.2).isOk = true) :
    get_photons_cached g net retries
        (get_photons_cached g net retries cache q).1 q =
      ((get_photons_cached g net retries cache q).1, [],
        (get_photons_cached g net retries cache q).2.2) ∧
    ∀ (k : Key) (f : List ℝ), cacheLookup cache k = some f →
      cacheLookup (get_photons_cached g net retries cache q).1 k = some f := by
  cases hbt : findBracket g.temperatures q.temperature with
  | none => simp [get_photons_cached, hbt, Except.isOk, Except.toBool] at h
  | some bt =>
  cases hbl : findBracket g.loggs q.logg with
  | none => simp [get_photons_cached, hbt, hbl, Except.isOk, Except.toBool] at h
  | some bl =>
  cases hbm : findBracket g.metallicities q.metallicity with
  | none =>
      simp [get_photons_cached, hbt, hbl, hbm, Except.isOk, Except.toBool] at h
  | some bm =>
  by_cases hcond : q.wavelength = none ∧ q.R ∉ g.resolutions
  · simp [get_photons_cached, hbt, hbl, hbm, if_pos hcond, Except.isOk,
      Except.toBool] at h
  · rcases hE : ensureAll net retries cache
        ((corners bt bl bm).map fun c => (c.1, c.2.1, c.2.2, usedR g q)) with
      ⟨c', ds, e⟩
    cases e with
    | some err =>
        have hcall : get_photons_cached g net retries cache q =
            (c', ds, .error err) := by
          simp only [get_photons_cached, hbt, hbl, hbm]
          rw [if_neg hcond, hE]
        rw [hcall] at h
        simp [Except.isOk, Except.toBool] at h
    | none =>
        have hcall : get_photons_cached g net retries cache q =
            (c', ds, spectrumFor g q bt bl bm fun t l m r i =>
              fileFlux c' (t, l, m, r) i) := by
          simp only [get_photons_cached, hbt, hbl, hbm]
          rw [if_neg hcond, hE]
        have hnone : (ensureAll net retries cache
            ((corners bt bl bm).map fun c =>
              (c.1, c.2.1, c.2.2, usedR g q))).2.2 = none := by
          rw [hE]
        have hcached : ∀ k ∈ (corners bt bl bm).map
            (fun c => (c.1, c.2.1, c.2.2, usedR g q)),
            (cacheLookup c' k).isSome := by
          intro k hk
          have h2 := ensureAll_ok_cached net retries _ cache hnone k hk
          rw [hE] at h2
          exact h2
        have hsecond : ensureAll net retries c'
            ((corners bt bl bm).map fun c => (c.1, c.2.1, c.2.2, usedR g q)) =
              (c', [], none) := ensureAll_allCached net retries _ c' hcached
        constructor
        · rw [hcall]
          simp only [get_photons_cached, hbt, hbl, hbm]
          rw [if_neg hcond, hsecond]
        · intro k f hf
          rw [hcall]
          have hp := ensureAll_preserves net retries
            ((corners bt bl bm).map fun c => (c.1, c.2.1, c.2.2, usedR g q))
            cache k f hf
          rw [hE] at hp
          exact hp

/-- C8 witness: after a first successful call for the exact grid point
(4, 1, 0) downloads its file, repeating the identical call returns the
bit-identical result with no further download and an unchanged cache. -/
theorem phoenix_cache_hit_determinism_witness :
    get_photons_cached wGrid (honestNet wGrid) 1
        (get_photons_cached wGrid (honestNet wGrid) 1 [] ⟨4, 1, 0, 10, none⟩).1
        ⟨4, 1, 0, 10, none⟩ =
      ((get_photons_cached wGrid (honestNet wGrid) 1 [] ⟨4, 1, 0, 10, none⟩).1,
        [],
        (get_photons_cached wGrid (honestNet wGrid) 1 []
          ⟨4, 1, 0, 10, none⟩).2.2) ∧
    ∀ (k : Key) (f : List ℝ), cacheLookup ([] : Cache) k = some f →
      cacheLookup
        (get_photons_cached wGrid (honestNet wGrid) 1 [] ⟨4, 1, 0, 10, none⟩).1
          k = some f :=
  phoenix_cache_hit_determinism wGrid (honestNet wGrid) 1 [] ⟨4, 1, 0, 10, none⟩
    rfl

/-- C9: every successful call returns a spectrum whose wavelength array
carries a length unit (the micron) and whose flux array carries the
photon-count-rate per unit area per unit wavelength unit (photon dimension
+1 and time dimension -1: a photon rate, not an energy rate). -/
theorem phoenix_units_contract (g : PhoenixGrid) (q : Query) (s : Spectrum)
    (h : get_photons g q = .ok s) :
    s.wavelengthUnit = micronUnit ∧ s.wavelengthUnit.isLengthUnit ∧
    s.fluxUnit = photonSurfaceFluxUnit ∧ s.fluxUnit.photon = 1 ∧
    s.fluxUnit.time = -1 := by
  cases hbt : findBracket g.temperatures q.temperature with
  | none => simp [get_photons, hbt] at h
  | some bt =>
  cases hbl : findBracket g.loggs q.logg with
  | none => simp [get_photons, hbt, hbl] at h
  | some bl =>
  cases hbm : findBracket g.metallicities q.metallicity with
  | none => simp [get_photons, hbt, hbl, hbm] at h
  | some bm =>
  simp only [get_photons, hbt, hbl, hbm] at h
  cases hw : q.wavelength with
  | some ws =>
      simp only [spectrumFor, hw] at h
      rw [← Except.ok.inj h]
      exact ⟨rfl, ⟨rfl, rfl, rfl⟩, rfl, rfl, rfl⟩
  | none =>
      by_cases hR : q.R ∈ g.resolutions
      · simp only [spectrumFor, hw, if_pos hR] at h
        rw [← Except.ok.inj h]
        exact ⟨rfl, ⟨rfl, rfl, rfl⟩, rfl, rfl, rfl⟩
      · simp only [spectrumFor, hw, if_neg hR] at h
        exact absurd h (by simp)

/-- C9 witness: a concrete successful call carries the micron wavelength
unit and the photon surface-flux unit. -/
theorem phoenix_units_contract_witness :
    (⟨[], micronUnit, [], photonSurfaceFluxUnit⟩ : Spectrum).wavelengthUnit =
        micronUnit ∧
      (⟨[], micronUnit, [], photonSurfaceFluxUnit⟩ :
        Spectrum).wavelengthUnit.isLengthUnit ∧
      (⟨[], micronUnit, [], photonSurfaceFluxUnit⟩ : Spectrum).fluxUnit =
        photonSurfaceFluxUnit ∧
      (⟨[], micronUnit, [], photonSurfaceFluxUnit⟩ :
          Spectrum).fluxUnit.photon = 1 ∧
      (⟨[], micronUnit, [], photonSurfaceFluxUnit⟩ :
          Spectrum).fluxUnit.time = -1 :=
  phoenix_units_contract wGrid ⟨4, 1, 0, 10, some []⟩
    ⟨[], micronUnit, [], photonSurfaceFluxUnit⟩ rfl

/-- Indexing a mapped range list below its length (rational values). -/
theorem getD_map_range_q (n i : ℕ) (f : ℕ → ℚ) (d : ℚ) (h : i < n) :
    ((List.range n).map f).getD i d = f i := by
  rw [List.getD_eq_getElem?_getD]
  simp [List.getElem?_map, List.getElem?_range h]

/-- The head of a nonempty mapped range list is the value at 0. -/
theorem headD_map_range {α : Type} (n : ℕ) (f : ℕ → α) (d : α) (h : 0 < n) :
    ((List.range n).map f).headD d = f 0 := by
  obtain ⟨m, rfl⟩ : ∃ m, n = m + 1 :=
    ⟨n - 1, (Nat.succ_pred_eq_of_pos h).symm⟩
  rw [List.range_succ_eq_map]
  simp

/-- The last element of a mapped range list is the value at the top index. -/
theorem getLastD_map_range {α : Type} (n : ℕ) (f : ℕ → α) (d : α) :
    ((List.range (n + 1)).map f).getLastD d = f n := by
  rw [List.range_succ, List.map_append]
  exact List.getLastD_concat d (f n) _

/-- Unfolding the bin count at a positive resolution. -/
theorem binCount_pos_eq (R : ℚ) (h : 0 < R) :
    binCount R = Nat.find (binCount_exists R h) + 1 := dif_pos h

/-- The default temperature 5780 K lies strictly between the standard grid
temperatures 5700 K and 5800 K. -/
theorem standard_bracket_T :
    findBracket standardTemperatures 5780 = some (5700, 5800) := by
  norm_num [findBracket, standardTemperatures, List.range_succ]

/-- The default surface gravity 4.5 dex is a standard grid value. -/
theorem standard_bracket_L :
    findBracket standardLoggs (9 / 2) = some (9 / 2, 9 / 2) := by
  norm_num [findBracket, standardLoggs, List.range_succ]

/-- The default metallicity 0.0 dex is a standard grid value. -/
theorem standard_bracket_M :
    findBracket standardMetallicities 0 = some (0, 0) := by
  norm_num [findBracket, standardMetallicities]

/-- C10: every parameter of `get_phoenix_photons` is optional; the supported
tier set is exactly R in {10, 100, 1000, 10000, 100000}; a call supplying
only such an R (all stellar parameters defaulted) succeeds and returns the
full model wavelength range, starting at 0.05 micron, ending at or beyond
5 micron, binned geometrically at resolution R (successive bin ratio
1 + 1/R); and per-tier file sizes grow monotonically from 400 kilobytes at
R = 10 to 3 gigabytes at R = 100000. -/
theorem phoenix_resolution_tiers_defaults
    (flux : ℚ → ℚ → ℚ → ℚ → ℕ → ℝ) (R : ℚ)
    (hR : R ∈ standardResolutions) :
    (standardGrid flux).resolutions = [10, 100, 1000, 10000, 100000] ∧
    fileSizeBytes 10 = 400000 ∧
    fileSizeBytes 100000 = 3000000000 ∧
    (∀ r ∈ standardResolutions, ∀ r' ∈ standardResolutions,
      r ≤ r' → fileSizeBytes r ≤ fileSizeBytes r') ∧
    ∃ s, get_phoenix_photons (standardGrid flux) none none none (some R)
        none = .ok s ∧
      s.wavelength.headD 0 = 1 / 20 ∧
      5 ≤ s.wavelength.getLastD 0 ∧
      ∀ i, i + 1 < s.wavelength.length →
        s.wavelength.getD (i + 1) 0 = s.wavelength.getD i 0 * (1 + 1 / R) := by
  have h0 : 0 < R := by
    have hR' := hR
    simp only [standardResolutions, List.mem_cons, List.not_mem_nil,
      or_false] at hR'
    rcases hR' with rfl | rfl | rfl | rfl | rfl <;> norm_num
  have hmono : ∀ r ∈ standardResolutions, ∀ r' ∈ standardResolutions,
      r ≤ r' → fileSizeBytes r ≤ fileSizeBytes r' := by
    intro r hr r' hr'
    simp only [standardResolutions, List.mem_cons, List.not_mem_nil,
      or_false] at hr hr'
    rcases hr with rfl | rfl | rfl | rfl | rfl <;>
      rcases hr' with rfl | rfl | rfl | rfl | rfl <;>
      norm_num [fileSizeBytes]
  have hq : get_phoenix_photons (standardGrid flux) none none none (some R)
      none = get_photons (standardGrid flux) ⟨5780, 9 / 2, 0, R, none⟩ := rfl
  have hok := get_photons_eq_of_brackets (standardGrid flux)
    ⟨5780, 9 / 2, 0, R, none⟩ (5700, 5800) (9 / 2, 9 / 2) (0, 0)
    standard_bracket_T standard_bracket_L standard_bracket_M rfl hR
  refine ⟨rfl, rfl, rfl, hmono, _, hq.trans hok, ?_, ?_, ?_⟩
  · show ((List.range (binCount R)).map (standardWavelengthOf R)).headD 0 =
      1 / 20
    have hpos : 0 < binCount R := by
      rw [binCount_pos_eq R h0]
      exact Nat.succ_pos _
    rw [headD_map_range _ _ _ hpos]
    simp [standardWavelengthOf]
  · show (5 : ℚ) ≤
      ((List.range (binCount R)).map (standardWavelengthOf R)).getLastD 0
    rw [binCount_pos_eq R h0, getLastD_map_range]
    have hspec := Nat.find_spec (binCount_exists R h0)
    simp only [standardWavelengthOf]
    calc (5 : ℚ) = 1 / 20 * 100 := by norm_num
    _ ≤ 1 / 20 * (1 + 1 / R) ^ Nat.find (binCount_exists R h0) :=
        mul_le_mul_of_nonneg_left hspec (by norm_num)
  · show ∀ i, i + 1 <
        ((List.range (binCount R)).map (standardWavelengthOf R)).length →
      ((List.range (binCount R)).map (standardWavelengthOf R)).getD (i + 1) 0 =
        ((List.range (binCount R)).map (standardWavelengthOf R)).getD i 0 *
          (1 + 1 / R)
    intro i hi
    have hlen : ((List.range (binCount R)).map
        (standardWavelengthOf R)).length = binCount R := by simp
    rw [hlen] at hi
    rw [getD_map_range_q _ _ _ _ hi,
      getD_map_range_q _ _ _ _ (Nat.lt_of_succ_lt hi)]
    simp only [standardWavelengthOf, pow_succ]
    ring

/-- C10 witness: the coarsest tier R = 10 is supported; a call supplying
only it succeeds with the documented coverage and file-size endpoints. -/
theorem phoenix_resolution_tiers_defaults_witness :
    (standardGrid fun _ _ _ _ _ => (0 : ℝ)).resolutions =
        [10, 100, 1000, 10000, 100000] ∧
      fileSizeBytes 10 = 400000 ∧
      fileSizeBytes 100000 = 3000000000 ∧
      (∀ r ∈ standardResolutions, ∀ r' ∈ standardResolutions,
        r ≤ r' → fileSizeBytes r ≤ fileSizeBytes r') ∧
      ∃ s, get_phoenix_photons (standardGrid fun _ _ _ _ _ => (0 : ℝ)) none
          none none (some 10) none = .ok s ∧
        s.wavelength.headD 0 = 1 / 20 ∧
        5 ≤ s.wavelength.getLastD 0 ∧
        ∀ i, i + 1 < s.wavelength.length →
          s.wavelength.getD (i + 1) 0 = s.wavelength.getD i 0 * (1 + 1 / 10) :=
  phoenix_resolution_tiers_defaults (fun _ _ _ _ _ => (0 : ℝ)) 10
    (List.mem_cons_self 10 _)

end Theorems

end Phoenix
